import Mathlib

/-!
Shallow embedding of the core pipeline of `Suno_downloader.py`: the
retry-wrapped page fetch, pagination discovery, the parallel collection
fetch with deduplicating extraction, collision-safe download naming, the
metadata embed, and the `main` control flow.  Network and filesystem
effects are modelled by explicit oracles (per-attempt outcomes, existing
file lists, operator input), and every function mirrors the control flow
of the Python source line by line.
-/

namespace Suno

/-- A raw catalog record as decoded from one page of the feed.  Each field
mirrors `clip.get("...")` in the source: `none` models an absent key or a
JSON null, `some s` a string value (possibly empty). -/
structure Clip where
  id : Option String
  title : Option String
  audio_url : Option String
  image_url : Option String
  display_name : Option String
  deriving Repr, DecidableEq

/-- Python truthiness of an optional string: `None` and `""` are falsy. -/
def truthy : Option String → Bool
  | none => false
  | some s => !(s == "")

/-- One entry of the `song_info` mapping built by
`extract_private_song_info` (lines 184-190 of the source). -/
structure SongMeta where
  title : String
  audio_url : String
  image_url : Option String
  display_name : Option String
  uuid : String
  deriving Repr, DecidableEq

/-! ## The retry-wrapped page fetch (`fetch_page_with_retry`, lines 86-108)

One HTTP attempt either yields a response with a status code and a JSON
body, or raises a transport-level `RequestException`. -/

/-- The decoded JSON body of a page response: either a bare array of
records (`data if isinstance(data, list)`) or an object whose `"clips"`
field may be absent (`data.get("clips", [])`). -/
inductive Body where
  | arr (clips : List Clip)
  | obj (clips : Option (List Clip))
  deriving Repr, DecidableEq

/-- Outcome of one HTTP attempt inside the retry loop. -/
inductive AttemptOutcome where
  | resp (status : Nat) (body : Body)
  | exn
  deriving Repr, DecidableEq

/-- The list a body decodes to (line 99 of the source). -/
def Body.toClips : Body → List Clip
  | .arr clips => clips
  | .obj clips => clips.getD []

/-- Result of the whole retry-wrapped fetch: `(None, True)` on 401/403,
`(clips, False)` on success, or the propagated terminal exception. -/
inductive FetchResult where
  | authFailure
  | success (clips : List Clip)
  | raised
  deriving Repr, DecidableEq

/-- Trace of one `fetch_page_with_retry` call: its result, how many HTTP
attempts it performed, and how many inter-attempt sleeps it executed. -/
structure FetchTrace where
  result : FetchResult
  attempts : Nat
  delays : Nat
  deriving Repr, DecidableEq

/-- An attempt outcome that takes the retry branch of the loop
(lines 101-104): a transport exception, or a non-2xx status that is not
401/403, which `raise_for_status` turns into a `RequestException`. -/
def isTransient : AttemptOutcome → Bool
  | .exn => true
  | .resp status _ => !(status == 401) && !(status == 403) && decide (400 ≤ status)

/-- The body of the `for attempt in range(max_retries)` loop of
`fetch_page_with_retry`, lines 90-107: 401/403 returns the auth-failure
outcome at once; other non-2xx statuses and transport errors sleep and
retry while budget remains, and raise on the final attempt; any other
response decodes to a clip list. -/
def fetchGo (oracle : Nat → AttemptOutcome) (maxR : Nat) (attempt : Nat) : FetchTrace :=
  match oracle attempt with
  | .resp status body =>
    if status = 401 ∨ status = 403 then
      { result := .authFailure, attempts := 1, delays := 0 }
    else if 400 ≤ status then
      -- raise_for_status raises; caught by the except branch
      if _h2 : attempt < maxR - 1 then
        let t := fetchGo oracle maxR (attempt + 1)
        { result := t.result, attempts := t.attempts + 1, delays := t.delays + 1 }
      else
        { result := .raised, attempts := 1, delays := 0 }
    else
      { result := .success body.toClips, attempts := 1, delays := 0 }
  | .exn =>
    if _h2 : attempt < maxR - 1 then
      let t := fetchGo oracle maxR (attempt + 1)
      { result := t.result, attempts := t.attempts + 1, delays := t.delays + 1 }
    else
      { result := .raised, attempts := 1, delays := 0 }
termination_by maxR - attempt
decreasing_by
  all_goals exact Nat.sub_succ_lt_self _ _ (Nat.lt_of_lt_of_le _h2 (Nat.sub_le _ _))

/-- `fetch_page_with_retry` (lines 86-108) over an oracle giving the
outcome of each attempt.  A zero retry budget skips the loop and returns
`([], False)` (line 108). -/
def fetch_page_with_retry (oracle : Nat → AttemptOutcome) (maxR : Nat := 10) : FetchTrace :=
  if maxR = 0 then { result := .success [], attempts := 0, delays := 0 }
  else fetchGo oracle maxR 0

/-! ## The download retry loop (`download_file`, lines 210-224)

One attempt either succeeds (streams the whole body to the resolved
path), fails before the output file is opened (`raise_for_status`), or
fails mid-stream after the file was opened, leaving a partial write. -/

/-- Outcome of one attempt of the `download_file` loop. -/
inductive DlAttempt where
  | ok
  | exnEarly
  | exnMid
  deriving Repr, DecidableEq

/-- An attempt outcome that takes the retry branch of `download_file`. -/
def dlTransient : DlAttempt → Bool
  | .ok => false
  | .exnEarly => true
  | .exnMid => true

/-- Trace of a `download_file` retry loop on an already-resolved target
path: result (`some` saved path, `none` for the propagated exception),
attempt and sleep counts, and the list of paths opened for writing. -/
structure DlTrace where
  result : Option (List Char)
  attempts : Nat
  delays : Nat
  writes : List (List Char)
  deriving Repr, DecidableEq

/-- The `for attempt in range(max_retries)` loop of `download_file`
(lines 210-223): on success return the resolved path; on failure sleep
and retry while budget remains, else re-raise.  Every write in the loop
targets the single path resolved before the loop started. -/
def downloadGo (oracle : Nat → DlAttempt) (target : List Char) (maxR attempt : Nat) : DlTrace :=
  match oracle attempt with
  | .ok => { result := some target, attempts := 1, delays := 0, writes := [target] }
  | .exnEarly =>
    if _h : attempt < maxR - 1 then
      let t := downloadGo oracle target maxR (attempt + 1)
      { result := t.result, attempts := t.attempts + 1, delays := t.delays + 1,
        writes := t.writes }
    else
      { result := none, attempts := 1, delays := 0, writes := [] }
  | .exnMid =>
    if _h : attempt < maxR - 1 then
      let t := downloadGo oracle target maxR (attempt + 1)
      { result := t.result, attempts := t.attempts + 1, delays := t.delays + 1,
        writes := target :: t.writes }
    else
      { result := none, attempts := 1, delays := 0, writes := [target] }
termination_by maxR - attempt
decreasing_by
  all_goals exact Nat.sub_succ_lt_self _ _ (Nat.lt_of_lt_of_le _h (Nat.sub_le _ _))

/-! ## Pagination discovery, parallel fetch and extraction
(`determine_total_pages` lines 110-126, `extract_private_song_info`
lines 128-193, `main` lines 226-269)

At this level one retry-wrapped page fetch is abstracted to its
observable outcome (`FetchResult`), determined by the credential it was
issued with and the page number. -/

/-- Outcome of one whole `fetch_page_with_retry` call as a function of
the credential in the request headers and the page number. -/
abbrev PageOracle := String → Nat → FetchResult

/-- Result of `determine_total_pages`: a page count, the auth-failure
flag, or a propagated terminal exception. -/
inductive DiscRes where
  | pages (n : Nat)
  | authFailed
  | raised
  deriving Repr, DecidableEq

/-- `determine_total_pages` (lines 110-126), instrumented with the list
of `(page, credential)` fetches it issues, in order.  The Python loop is
unbounded; `fuel` bounds the recursion and `none` means the fuel ran out
before the loop terminated. -/
def determineRun (fetch : PageOracle) (token : String) :
    Nat → Nat → Option (DiscRes × List (Nat × String))
  | 0, _ => none
  | fuel + 1, page =>
    match fetch token page with
    | .authFailure => some (.authFailed, [(page, token)])
    | .raised => some (.raised, [(page, token)])
    | .success clips =>
      if clips.isEmpty then some (.pages (page - 1), [(page, token)])
      else (determineRun fetch token fuel (page + 1)).map
        (fun r => (r.1, (page, token) :: r.2))

/-- The `song_info` entry built from a clip (lines 184-190). -/
def clipMeta (c : Clip) : SongMeta :=
  { title := c.title.getD "", audio_url := c.audio_url.getD "",
    image_url := c.image_url, display_name := c.display_name,
    uuid := c.id.getD "" }

/-- The truthiness test `uuid and title and audio_url` of line 183. -/
def validClip (c : Clip) : Bool :=
  truthy c.id && truthy c.title && truthy c.audio_url

/-- One iteration of the clip loop (lines 181-190): insert the record iff
its identity, title and primary URL are truthy and the identity is not
yet a key of the mapping. -/
def addClip (si : List (String × SongMeta)) (c : Clip) : List (String × SongMeta) :=
  if validClip c && (si.lookup (c.id.getD "")).isNone
  then si ++ [(c.id.getD "", clipMeta c)] else si

/-- The clip loop over one page's clip list. -/
def processClips (si : List (String × SongMeta)) (clips : List Clip) :
    List (String × SongMeta) :=
  clips.foldl addClip si

/-- The page numbers present in the collected page data. -/
def pageKeys (pd : List (Nat × List Clip)) : List Nat := pd.map Prod.fst

/-- Lines 178-191: `for page_num in sorted(all_pages_data.keys())`, then
the clip loop, starting from the empty mapping.  `pd` is the page data in
completion order; the keys are sorted ascending before extraction. -/
def processAllPages (pd : List (Nat × List Clip)) : List (String × SongMeta) :=
  (List.insertionSort (· ≤ ·) (pageKeys pd)).foldl
    (fun si k => processClips si ((pd.lookup k).getD [])) []

/-- The clip list stored for page `k` (`all_pages_data[page_num]`). -/
def clipsOf (pd : List (Nat × List Clip)) (k : Nat) : List Clip :=
  (pd.lookup k).getD []

/-- The clips of the given pages, in that page order, flattened. -/
def streamOf (pd : List (Nat × List Clip)) : List Nat → List Clip
  | [] => []
  | k :: ks => clipsOf pd k ++ streamOf pd ks

/-- All clips in ascending page order, flattened: the stream the clip
loop of lines 179-190 traverses. -/
def clipStream (pd : List (Nat × List Clip)) : List Clip :=
  streamOf pd (List.insertionSort (· ≤ ·) (pageKeys pd))

/-- The first clip of a stream that is valid and carries identity `u`:
the record the first-occurrence-wins policy keeps for `u`. -/
def firstValid (u : String) : List Clip → Option Clip
  | [] => none
  | c :: rest =>
    if validClip c && (c.id.getD "" == u) then some c else firstValid u rest

/-- The `as_completed` loop of lines 164-175 over the futures in their
completion order: any auth failure or raised terminal error makes
`extract_private_song_info` return `{}` at once (modelled as `none`);
otherwise the page data is accumulated keyed by page number. -/
def collectPages (fetch : PageOracle) (token : String) :
    List Nat → Option (List (Nat × List Clip))
  | [] => some []
  | p :: rest =>
    match fetch token p with
    | .authFailure => none
    | .raised => none
    | .success clips => (collectPages fetch token rest).map (fun l => (p, clips) :: l)

/-- Result of `extract_private_song_info`, instrumented with every page
fetch issued (page number and credential, in issue order).  `crashed`
marks a terminal exception escaping discovery (line 134 or 143 is not
wrapped in `try`, so it propagates out of the function). -/
structure ExtractOut where
  songs : List (String × SongMeta)
  pageCalls : List (Nat × String)
  crashed : Bool
  deriving Repr, DecidableEq

/-- Lines 150-193: the parallel fetch over pages `1..total_pages` with
the (by now settled) credential, followed by extraction.  All submitted
futures execute even when the batch aborts (`ThreadPoolExecutor.shutdown`
waits for queued tasks), so every page contributes one fetch call. -/
def continueExtract (fetch : PageOracle) (order : List Nat) (token : String)
    (total_pages : Nat) (calls : List (Nat × String)) : ExtractOut :=
  if total_pages = 0 then { songs := [], pageCalls := calls, crashed := false }
  else
    let subCalls := (List.range' 1 total_pages).map (fun p => (p, token))
    match collectPages fetch token order with
    | none => { songs := [], pageCalls := calls ++ subCalls, crashed := false }
    | some pd =>
      { songs := processAllPages pd, pageCalls := calls ++ subCalls, crashed := false }

/-- `extract_private_song_info` (lines 128-193): discovery with the
initial credential; on auth failure prompt once for a replacement
(`operatorInput` is the stripped reply) and retry discovery; a second
auth failure or an empty reply yields `{}`; then the parallel fetch and
extraction run with the credential discovery settled on. -/
def extractRun (fetch : PageOracle) (order : List Nat) (operatorInput : String)
    (token0 : String) (fuel : Nat) : Option ExtractOut :=
  match determineRun fetch token0 fuel 1 with
  | none => none
  | some (.raised, calls1) => some { songs := [], pageCalls := calls1, crashed := true }
  | some (.authFailed, calls1) =>
    if operatorInput = "" then
      some { songs := [], pageCalls := calls1, crashed := false }
    else
      match determineRun fetch operatorInput fuel 1 with
      | none => none
      | some (.raised, calls2) =>
        some { songs := [], pageCalls := calls1 ++ calls2, crashed := true }
      | some (.authFailed, calls2) =>
        some { songs := [], pageCalls := calls1 ++ calls2, crashed := false }
      | some (.pages n, calls2) =>
        some (continueExtract fetch order operatorInput n (calls1 ++ calls2))
  | some (.pages n, calls1) => some (continueExtract fetch order token0 n calls1)

/-- The effectful environment `main` runs against: page-fetch outcomes by
credential, the completion order of the parallel futures, the operator's
reply to the credential prompt, and per-call outcomes of `download_file`
(`none` models a raised terminal error) and of `embed_metadata`. -/
structure World where
  fetch : PageOracle
  order : List Nat
  operatorInput : String
  download : String → String → Option String
  embedOk : String → String → Bool

/-- Observable outcome of one `main` run: the process exit status, the
extracted mapping, and every network call with the credential it used. -/
structure MainOut where
  exitCode : Nat
  songs : List (String × SongMeta)
  pageCalls : List (Nat × String)
  downloadCalls : List (String × String)
  thumbCalls : List (String × String)
  deriving Repr, DecidableEq

/-- One iteration of the download loop of lines 244-266: the download is
issued with `args.token`; if it raises, the `except` at line 265 catches
and the thumbnail is never fetched; otherwise the thumbnail is fetched
(again with `args.token`) when requested and the record has a truthy
cover URL.  Failures of the embed itself are caught by the same
`except`. -/
def processItem (w : World) (argsToken : String) (withThumbnail : Bool)
    (m : SongMeta) : List (String × String) × List (String × String) :=
  match w.download m.audio_url argsToken with
  | none => ([(m.audio_url, argsToken)], [])
  | some _saved =>
    if withThumbnail && truthy m.image_url then
      ([(m.audio_url, argsToken)], [(m.image_url.getD "", argsToken)])
    else ([(m.audio_url, argsToken)], [])

/-- The whole download loop: every item is processed in mapping order;
per-item failures are caught and the loop continues to the next item. -/
def processItems (w : World) (argsToken : String) (withThumbnail : Bool) :
    List (String × SongMeta) → List (String × String) × List (String × String)
  | [] => ([], [])
  | (_, m) :: rest =>
    let r := processItem w argsToken withThumbnail m
    let rs := processItems w argsToken withThumbnail rest
    (r.1 ++ rs.1, r.2 ++ rs.2)

/-- `main` (lines 226-269): extract; `sys.exit(1)` when the mapping is
empty (an uncaught discovery exception also terminates with a non-zero
status); otherwise run the download loop and `sys.exit(0)`. -/
def mainRun (w : World) (argsToken : String) (withThumbnail : Bool) (fuel : Nat) :
    Option MainOut :=
  match extractRun w.fetch w.order w.operatorInput argsToken fuel with
  | none => none
  | some eo =>
    if eo.crashed then
      some { exitCode := 1, songs := eo.songs, pageCalls := eo.pageCalls,
             downloadCalls := [], thumbCalls := [] }
    else if eo.songs.isEmpty then
      some { exitCode := 1, songs := eo.songs, pageCalls := eo.pageCalls,
             downloadCalls := [], thumbCalls := [] }
    else
      let dt := processItems w argsToken withThumbnail eo.songs
      some { exitCode := 0, songs := eo.songs, pageCalls := eo.pageCalls,
             downloadCalls := dt.1, thumbCalls := dt.2 }

/-! ## Collision-safe naming (`get_unique_filename`, lines 195-202, and
`download_file`, lines 204-224)

Paths are lists of characters; the filesystem the functions probe is the
list of paths that existed when the call started. -/

/-- Python `str.rfind`: the greatest index of `c` in `p`, `-1` if none. -/
def rfind (p : List Char) (c : Char) : Int :=
  (p.foldl (fun (st : Int × Nat) ch =>
    (if ch = c then (st.2 : Int) else st.1, st.2 + 1)) (-1, 0)).1

/-- `os.path.splitext` for POSIX paths: split at the last dot of the last
component, unless every character of the component before that dot is
itself a dot (leading-dot names such as `.bashrc` keep no extension). -/
def splitext (p : List Char) : List Char × List Char :=
  let sepIndex := rfind p '/'
  let dotIndex := rfind p '.'
  if sepIndex < dotIndex then
    let d := dotIndex.toNat
    let start := (sepIndex + 1).toNat
    if ((List.range d).drop start).any (fun j => p.getD j ' ' != '.') then
      (p.take d, p.drop d)
    else (p, [])
  else (p, [])

/-- Decimal digits, fuel-bounded so that the recursion is structural;
`fuel > n` always suffices since `n / 10 < n`. -/
def decReprAux : Nat → Nat → List Char
  | 0, _ => []
  | fuel + 1, n =>
    if n < 10 then [Char.ofNat (48 + n)]
    else decReprAux fuel (n / 10) ++ [Char.ofNat (48 + n % 10)]

/-- Decimal digits of `n`, as Python's `str` renders a nonnegative
integer inside the f-string of line 200. -/
def decRepr (n : Nat) : List Char := decReprAux (n + 1) n

/-- Value of a decimal digit string (left inverse of `decRepr`). -/
def decVal (l : List Char) : Nat :=
  l.foldl (fun acc c => acc * 10 + (c.toNat - 48)) 0

/-- The candidate path `f"{name} v{counter}{extn}"` of line 200. -/
def versioned (name extn : List Char) (counter : Nat) : List Char :=
  name ++ [' ', 'v'] ++ decRepr counter ++ extn

/-- The `while True` loop of lines 199-202, bounded by `fuel`: step the
counter while the candidate path exists, return the first free one. -/
def guAux (fs : List (List Char)) (name extn : List Char) :
    Nat → Nat → Option (List Char)
  | _counter, 0 => none
  | counter, fuel + 1 =>
    if versioned name extn counter ∈ fs then guAux fs name extn (counter + 1) fuel
    else some (versioned name extn counter)

/-- `get_unique_filename` (lines 195-202): the desired path itself when
no file exists there, else the first free ` v2`, ` v3`, … variant. -/
def get_unique_filename (fs : List (List Char)) (filename : List Char)
    (fuel : Nat) : Option (List Char) :=
  if filename ∈ fs then
    guAux fs (splitext filename).1 (splitext filename).2 2 fuel
  else some filename

/-- `download_file` (lines 204-224): resolve the collision-safe path
once, before any network attempt, then run the retry loop against that
single resolved target.  A zero retry budget skips the loop and returns
the resolved path unwritten (line 224). -/
def download_file (fs : List (List Char)) (filename : List Char)
    (oracle : Nat → DlAttempt) (maxR fuel : Nat) : Option DlTrace :=
  (get_unique_filename fs filename fuel).map (fun u =>
    if maxR = 0 then { result := some u, attempts := 0, delays := 0, writes := [] }
    else downloadGo oracle u maxR 0)

/-! ## The metadata embed (`embed_metadata`, lines 73-84)

The ID3 container of the external tag library is modelled as an
insertion-ordered dictionary from frame hash keys to frames; an embedded
image is stored under a key starting with `"APIC"`, and `add` keys the
new image frame under `"APIC:" + desc`. -/

/-- An ID3 frame as `embed_metadata` builds them: a title text frame, an
artist text frame, or an attached picture with its MIME type, picture
type (`3` is the front-cover classification) and payload. -/
inductive Frame where
  | tit2 (text : String)
  | tpe1 (text : String)
  | apic (mime : String) (ftype : Nat) (desc : String) (data : String)
  deriving Repr, DecidableEq

/-- Dictionary assignment `tags[key] = frame`: replace in place if the
key is present, append otherwise. -/
def setTag : List (String × Frame) → String → Frame → List (String × Frame)
  | [], k, f => [(k, f)]
  | (k', f') :: rest, k, f =>
    if k' = k then (k, f) :: rest else (k', f') :: setTag rest k f

/-- `key.startswith("APIC")` of line 81, decided on the character list. -/
def isApicKey (k : String) : Bool := k.data.take 4 == "APIC".data

/-- Lines 80-81: delete every key of the container that starts with
`"APIC"`. -/
def delAPIC (tags : List (String × Frame)) : List (String × Frame) :=
  tags.filter (fun e => !(isApicKey e.1))

/-- The embedded-image entries of a container. -/
def apicEntries (tags : List (String × Frame)) : List (String × Frame) :=
  tags.filter (fun e => isApicKey e.1)

/-- The tag-container transformation of `embed_metadata` (lines 77-84):
set the title and artist text frames when truthy, delete every
pre-existing image entry, then attach the new image (`type=3`, i.e.
front cover, keyed by the library under `"APIC:Cover"`). -/
def embedTags (tags : List (String × Frame)) (title artist : Option String)
    (mime imgData : String) : List (String × Frame) :=
  let t1 := if truthy title then setTag tags "TIT2" (.tit2 (title.getD "")) else tags
  let t2 := if truthy artist then setTag t1 "TPE1" (.tpe1 (artist.getD "")) else t1
  setTag (delAPIC t2) "APIC:Cover" (.apic mime 3 "Cover" imgData)

/-- A record all of whose required fields are present. -/
def dummyClip : Clip :=
  { id := some "id", title := some "t", audio_url := some "u",
    image_url := none, display_name := none }

/-- A simulated catalog of `T` items at `k` per page: page `p` holds the
items with zero-based indices `(p-1)*k` up to `p*k - 1`. -/
def chunkPages (T k : Nat) : PageOracle :=
  fun _ p => .success (List.replicate (min k (T - (p - 1) * k)) dummyClip)

/-- A record with all required fields and a cover URL. -/
def imgClip : Clip := { dummyClip with image_url := some "img" }

/-- A concrete run environment in which discovery fails authentication
with the original credential and succeeds with the replacement `"new"`:
one page holding one record with a cover URL. -/
def exampleWorld : World :=
  { fetch := fun t p =>
      if t = "new" then (if p = 1 then .success [imgClip] else .success [])
      else .authFailure
    order := [1]
    operatorInput := "new"
    download := fun _ _ => some "saved"
    embedOk := fun _ _ => true }

/-- A run environment whose catalog is empty from page 1 on. -/
def emptyWorld : World :=
  { fetch := fun _ _ => .success []
    order := []
    operatorInput := ""
    download := fun _ _ => none
    embedOk := fun _ _ => false }

/-- The observable outcome of `main` against `emptyWorld`. -/
def mainOutEmpty : MainOut :=
  { exitCode := 1, songs := [], pageCalls := [(1, "tk")],
    downloadCalls := [], thumbCalls := [] }

/-- The observable outcome of `main` against `exampleWorld` with original
credential `"old"` and thumbnails requested. -/
def mainOutExample : MainOut :=
  { exitCode := 0, songs := [("id", clipMeta imgClip)],
    pageCalls := [(1, "old"), (1, "new"), (2, "new"), (1, "new")],
    downloadCalls := [("u", "old")], thumbCalls := [("img", "old")] }

/-! ## Retry-loop lemmas -/

lemma fetchGo_allTransient (oracle : Nat → AttemptOutcome) (maxR : Nat) :
    ∀ fuel attempt, maxR - attempt = fuel + 1 →
      (∀ i, attempt ≤ i → i < maxR → isTransient (oracle i) = true) →
      fetchGo oracle maxR attempt =
        { result := .raised, attempts := fuel + 1, delays := fuel } := by
  intro fuel
  induction fuel with
  | zero =>
    intro attempt hfa htr
    have hlt : attempt < maxR := by omega
    have hnl : ¬ attempt < maxR - 1 := by omega
    have ht := htr attempt le_rfl hlt
    rw [fetchGo]
    cases ho : oracle attempt with
    | exn => simp [hnl]
    | resp status body =>
      rw [ho] at ht
      simp only [isTransient, Bool.and_eq_true, Bool.not_eq_true', beq_eq_false_iff_ne,
        ne_eq, decide_eq_true_eq] at ht
      obtain ⟨⟨h1, h2⟩, h3⟩ := ht
      simp [hnl, h1, h2, h3]
  | succ n ih =>
    intro attempt hfa htr
    have hlt : attempt < maxR := by omega
    have hl : attempt < maxR - 1 := by omega
    have ht := htr attempt le_rfl hlt
    have hrec := ih (attempt + 1) (by omega) (fun i hi1 hi2 => htr i (by omega) hi2)
    rw [fetchGo]
    cases ho : oracle attempt with
    | exn => simp [hl, hrec]
    | resp status body =>
      rw [ho] at ht
      simp only [isTransient, Bool.and_eq_true, Bool.not_eq_true', beq_eq_false_iff_ne,
        ne_eq, decide_eq_true_eq] at ht
      obtain ⟨⟨h1, h2⟩, h3⟩ := ht
      simp [hl, h1, h2, h3, hrec]

lemma fetchGo_auth (oracle : Nat → AttemptOutcome) (maxR k status : Nat) (body : Body)
    (hk : k < maxR) (hcur : oracle k = .resp status body)
    (hstatus : status = 401 ∨ status = 403) :
    ∀ n attempt, k - attempt = n → attempt ≤ k →
      (∀ i, attempt ≤ i → i < k → isTransient (oracle i) = true) →
      fetchGo oracle maxR attempt =
        { result := .authFailure, attempts := k - attempt + 1, delays := k - attempt } := by
  intro n
  induction n with
  | zero =>
    intro attempt hn hle htr
    have : attempt = k := by omega
    subst this
    rw [fetchGo, hcur]
    simp [hstatus]
  | succ n ih =>
    intro attempt hn hle htr
    have hl : attempt < maxR - 1 := by omega
    have ht := htr attempt le_rfl (by omega)
    have hrec := ih (attempt + 1) (by omega) (by omega)
      (fun i hi1 hi2 => htr i (by omega) hi2)
    rw [fetchGo]
    cases ho : oracle attempt with
    | exn => simp [hl, hrec]; omega
    | resp s b =>
      rw [ho] at ht
      simp only [isTransient, Bool.and_eq_true, Bool.not_eq_true', beq_eq_false_iff_ne,
        ne_eq, decide_eq_true_eq] at ht
      obtain ⟨⟨h1, h2⟩, h3⟩ := ht
      simp [hl, h1, h2, h3, hrec]
      omega

lemma downloadGo_allTransient (oracle : Nat → DlAttempt) (target : List Char) (maxR : Nat) :
    ∀ fuel attempt, maxR - attempt = fuel + 1 →
      (∀ i, attempt ≤ i → i < maxR → dlTransient (oracle i) = true) →
      (downloadGo oracle target maxR attempt).result = none ∧
      (downloadGo oracle target maxR attempt).attempts = fuel + 1 ∧
      (downloadGo oracle target maxR attempt).delays = fuel := by
  intro fuel
  induction fuel with
  | zero =>
    intro attempt hfa htr
    have hlt : attempt < maxR := by omega
    have hnl : ¬ attempt < maxR - 1 := by omega
    have ht := htr attempt le_rfl hlt
    rw [downloadGo]
    cases ho : oracle attempt with
    | ok => rw [ho] at ht; simp [dlTransient] at ht
    | exnEarly => simp [hnl]
    | exnMid => simp [hnl]
  | succ n ih =>
    intro attempt hfa htr
    have hlt : attempt < maxR := by omega
    have hl : attempt < maxR - 1 := by omega
    have ht := htr attempt le_rfl hlt
    have hrec := ih (attempt + 1) (by omega) (fun i hi1 hi2 => htr i (by omega) hi2)
    rw [downloadGo]
    cases ho : oracle attempt with
    | ok => rw [ho] at ht; simp [dlTransient] at ht
    | exnEarly => simp [hl, hrec]
    | exnMid => simp [hl, hrec]

/-! ## Pagination-discovery lemmas -/

lemma determineRun_seq (fetch : PageOracle) (t : String) :
    ∀ n start fuel,
      (∀ i, start ≤ i → i < start + n → ∃ clips, fetch t i = .success clips ∧ clips ≠ []) →
      n + 1 ≤ fuel →
      (fetch t (start + n) = .success [] →
        determineRun fetch t fuel start =
          some (.pages (start + n - 1), (List.range' start (n + 1)).map (fun p => (p, t)))) ∧
      (fetch t (start + n) = .authFailure →
        determineRun fetch t fuel start =
          some (.authFailed, (List.range' start (n + 1)).map (fun p => (p, t)))) := by
  intro n
  induction n with
  | zero =>
    intro start fuel hne hfuel
    obtain ⟨f, rfl⟩ : ∃ f, fuel = f + 1 := ⟨fuel - 1, by omega⟩
    constructor
    · intro he
      rw [Nat.add_zero] at he
      simp [determineRun, he, List.range']
    · intro he
      rw [Nat.add_zero] at he
      simp [determineRun, he, List.range']
  | succ m ih =>
    intro start fuel hne hfuel
    obtain ⟨f, rfl⟩ : ∃ f, fuel = f + 1 := ⟨fuel - 1, by omega⟩
    obtain ⟨clips, hc, hcn⟩ := hne start le_rfl (by omega)
    have ihs := ih (start + 1) f (fun i h1 h2 => hne i (by omega) (by omega)) (by omega)
    constructor
    · intro he
      have he' : fetch t (start + 1 + m) = .success [] := by
        rw [show start + 1 + m = start + (m + 1) by omega]; exact he
      simp only [determineRun, hc, List.isEmpty_eq_true, hcn, if_false, ihs.1 he',
        Option.map_some]
      simp [List.range'_succ]
    · intro he
      have he' : fetch t (start + 1 + m) = .authFailure := by
        rw [show start + 1 + m = start + (m + 1) by omega]; exact he
      simp only [determineRun, hc, List.isEmpty_eq_true, hcn, if_false, ihs.2 he',
        Option.map_some]
      simp [List.range'_succ]

lemma determineRun_calls_token (fetch : PageOracle) (t : String) :
    ∀ fuel page r calls, determineRun fetch t fuel page = some (r, calls) →
      ∀ c ∈ calls, c.2 = t := by
  intro fuel
  induction fuel with
  | zero => intro page r calls h; simp [determineRun] at h
  | succ f ih =>
    intro page r calls h
    rw [determineRun] at h
    cases hf : fetch t page with
    | authFailure => rw [hf] at h; simp at h; simp [← h.2]
    | raised => rw [hf] at h; simp at h; simp [← h.2]
    | success clips =>
      by_cases hce : clips.isEmpty
      · rw [hf] at h; simp [hce] at h; simp [← h.2]
      · cases hrec : determineRun fetch t f (page + 1) with
        | none => rw [hf] at h; simp [hce, hrec] at h
        | some pr =>
          obtain ⟨r', calls'⟩ := pr
          rw [hf] at h
          simp [hce, hrec] at h
          intro c hc
          rw [← h.2] at hc
          rcases List.mem_cons.mp hc with h1 | h1
          · rw [h1]
          · exact ih (page + 1) r' calls' (by rw [hrec]) c h1

lemma collectPages_bad (fetch : PageOracle) (t : String) :
    ∀ order, (∃ p ∈ order, fetch t p = .authFailure ∨ fetch t p = .raised) →
      collectPages fetch t order = none := by
  intro order
  induction order with
  | nil => intro h; simp at h
  | cons p rest ih =>
    intro h
    obtain ⟨q, hq, hbad⟩ := h
    rw [collectPages]
    cases hf : fetch t p with
    | authFailure => rfl
    | raised => rfl
    | success clips =>
      rcases List.mem_cons.mp hq with h1 | h1
      · subst h1; rw [hf] at hbad; rcases hbad with h2 | h2 <;> simp at h2
      · rw [ih ⟨q, h1, hbad⟩]; rfl

lemma ceil_bounds (T k : Nat) (hk : 0 < k) :
    T ≤ ((T + k - 1) / k) * k ∧ (∀ i, i < (T + k - 1) / k → i * k < T) ∧
    (T + k - 1) / k ≤ T := by
  have hdm := Nat.div_add_mod (T + k - 1) k
  have hml := Nat.mod_lt (T + k - 1) hk
  refine ⟨?_, ?_, ?_⟩
  · rw [Nat.mul_comm]
    generalize hkd : k * ((T + k - 1) / k) = kd at hdm ⊢
    omega
  · intro i hi
    have h1 : (i + 1) * k ≤ ((T + k - 1) / k) * k :=
      Nat.mul_le_mul_right k (by omega)
    rw [Nat.add_mul, Nat.one_mul] at h1
    rw [Nat.mul_comm] at hdm
    generalize hkd : ((T + k - 1) / k) * k = kd at hdm h1
    generalize hik : i * k = ik at h1 ⊢
    omega
  · by_contra hcon
    push_neg at hcon
    have h1 : (T + 1) * k ≤ ((T + k - 1) / k) * k :=
      Nat.mul_le_mul_right k (by omega)
    rw [Nat.add_mul, Nat.one_mul] at h1
    rw [Nat.mul_comm] at hdm
    have h2 : T ≤ T * k := Nat.le_mul_of_pos_right T hk
    generalize hkd : ((T + k - 1) / k) * k = kd at hdm h1
    generalize hTk : T * k = Tk at h1 h2
    omega

/-! ## Extraction-fold lemmas -/

lemma truthy_getD {o : Option String} (h : truthy o = true) : o.getD "" ≠ "" := by
  cases o with
  | none => simp [truthy] at h
  | some s => simpa [truthy] using h

lemma addClip_invalid {si : List (String × SongMeta)} {c : Clip}
    (h : validClip c = false) : addClip si c = si := by
  simp [addClip, h]

lemma lookup_append {α β : Type} [BEq α] (l1 l2 : List (α × β)) (k : α) :
    (l1 ++ l2).lookup k =
      match l1.lookup k with
      | some v => some v
      | none => l2.lookup k := by
  induction l1 with
  | nil => simp
  | cons e t ih =>
    obtain ⟨a, b⟩ := e
    by_cases hk : k == a
    · simp [List.lookup, hk]
    · simp only [List.cons_append, List.lookup, hk]
      exact ih

lemma addClip_lookup_other {si : List (String × SongMeta)} {c : Clip} {u : String}
    (h : ¬(validClip c && (c.id.getD "" == u)) = true) :
    (addClip si c).lookup u = si.lookup u := by
  rw [addClip]
  by_cases hv : (validClip c && (si.lookup (c.id.getD "")).isNone) = true
  · rw [if_pos hv, lookup_append]
    have hne : ¬(u == c.id.getD "") = true := by
      simp only [Bool.and_eq_true] at h hv
      intro hc
      exact h ⟨hv.1, beq_iff_eq.mpr (beq_iff_eq.mp hc).symm⟩
    cases hl : si.lookup u with
    | some v => rfl
    | none =>
      have hbe : (u == c.id.getD "") = false := by
        cases hub : (u == c.id.getD "") with
        | false => rfl
        | true => exact absurd hub hne
      simp only [List.lookup, hbe]
  · rw [if_neg hv]

lemma processClips_lookup (u : String) :
    ∀ (clips : List Clip) (si : List (String × SongMeta)),
      (processClips si clips).lookup u =
        match si.lookup u with
        | some m => some m
        | none => (firstValid u clips).map clipMeta := by
  intro clips
  induction clips with
  | nil =>
    intro si
    simp only [processClips, List.foldl_nil, firstValid]
    cases si.lookup u <;> rfl
  | cons c rest ih =>
    intro si
    have hstep : processClips si (c :: rest) = processClips (addClip si c) rest := rfl
    rw [hstep, ih, firstValid]
    by_cases hc : (validClip c && (c.id.getD "" == u)) = true
    · rw [if_pos hc]
      simp only [Bool.and_eq_true] at hc
      have hid : c.id.getD "" = u := beq_iff_eq.mp hc.2
      cases hl : si.lookup u with
      | some m =>
        have : (addClip si c).lookup u = si.lookup u := by
          rw [addClip]
          by_cases hv : (validClip c && (si.lookup (c.id.getD "")).isNone) = true
          · rw [hid] at hv
            simp [hl] at hv
          · rw [if_neg hv]
        rw [this, hl]
      | none =>
        have : (addClip si c).lookup u = some (clipMeta c) := by
          rw [addClip, hid]
          rw [if_pos (by simp [hc.1, hl])]
          rw [lookup_append, hl]
          simp [List.lookup]
        rw [this]
        rfl
    · rw [if_neg hc, addClip_lookup_other hc]

lemma streamOf_foldl (pd : List (Nat × List Clip)) :
    ∀ (ks : List Nat) (si : List (String × SongMeta)),
      ks.foldl (fun si k => processClips si ((pd.lookup k).getD [])) si =
        processClips si (streamOf pd ks) := by
  intro ks
  induction ks with
  | nil => intro si; simp [streamOf, processClips]
  | cons k t ih =>
    intro si
    rw [List.foldl_cons, ih, streamOf]
    simp [processClips, clipsOf, List.foldl_append]

lemma processAllPages_eq_stream (pd : List (Nat × List Clip)) :
    processAllPages pd = processClips [] (clipStream pd) := by
  rw [processAllPages, clipStream, streamOf_foldl]

lemma lookup_perm {α β : Type} [DecidableEq α] :
    ∀ {l1 l2 : List (α × β)}, l1.Perm l2 → (l1.map Prod.fst).Nodup →
      ∀ k, l1.lookup k = l2.lookup k := by
  intro l1 l2 h
  induction h with
  | nil => intro _ _; rfl
  | cons x h ih =>
    intro hn k
    obtain ⟨a, b⟩ := x
    simp only [List.map_cons, List.nodup_cons] at hn
    by_cases hk : k == a
    · simp [List.lookup, hk]
    · simp only [List.lookup, hk]
      exact ih hn.2 k
  | swap x y l =>
    intro hn k
    obtain ⟨a, b⟩ := x
    obtain ⟨a', b'⟩ := y
    simp only [List.map_cons, List.nodup_cons, List.mem_cons, not_or] at hn
    have hne : a' ≠ a := hn.1.1
    cases h1 : (k == a') <;> cases h2 : (k == a)
    · simp only [List.lookup, h1, h2]
    · simp only [List.lookup, h1, h2]
    · simp only [List.lookup, h1, h2]
    · exact absurd ((beq_iff_eq.mp h1).symm.trans (beq_iff_eq.mp h2)) hne
  | trans h1 h2 ih1 ih2 =>
    intro hn k
    rw [ih1 hn k, ih2 ((h1.map Prod.fst).nodup_iff.mp hn) k]

lemma processAllPages_perm (pd1 pd2 : List (Nat × List Clip)) (hp : pd1.Perm pd2)
    (hn : (pageKeys pd1).Nodup) : processAllPages pd1 = processAllPages pd2 := by
  have hkeys : (pageKeys pd1).Perm (pageKeys pd2) := hp.map Prod.fst
  have hsorted : List.insertionSort (· ≤ ·) (pageKeys pd1) =
      List.insertionSort (· ≤ ·) (pageKeys pd2) :=
    List.eq_of_perm_of_sorted
      ((List.perm_insertionSort _ _).trans
        (hkeys.trans (List.perm_insertionSort _ _).symm))
      (List.sorted_insertionSort _ _) (List.sorted_insertionSort _ _)
  have hlk : ∀ k, pd1.lookup k = pd2.lookup k := lookup_perm hp hn
  rw [processAllPages, processAllPages, hsorted]
  congr 1
  funext si k
  rw [hlk k]

lemma firstValid_spec (u : String) :
    ∀ (l : List Clip) (c : Clip), firstValid u l = some c →
      validClip c = true ∧ c.id.getD "" = u := by
  intro l
  induction l with
  | nil => intro c h; simp [firstValid] at h
  | cons d t ih =>
    intro c h
    rw [firstValid] at h
    by_cases hd : (validClip d && (d.id.getD "" == u)) = true
    · rw [if_pos hd] at h
      obtain rfl : d = c := by simpa using h
      simp only [Bool.and_eq_true] at hd
      exact ⟨hd.1, beq_iff_eq.mp hd.2⟩
    · rw [if_neg hd] at h
      exact ih c h

/-! ## Main-loop lemmas -/

lemma processItem_fst (w : World) (argsToken : String) (thumb : Bool) (m : SongMeta) :
    (processItem w argsToken thumb m).1 = [(m.audio_url, argsToken)] := by
  rw [processItem]
  cases hd : w.download m.audio_url argsToken with
  | none => rfl
  | some s =>
    dsimp only
    split <;> rfl

lemma processItems_fst (w : World) (argsToken : String) (thumb : Bool) :
    ∀ l : List (String × SongMeta),
      (processItems w argsToken thumb l).1 =
        l.map (fun e => (e.2.audio_url, argsToken)) := by
  intro l
  induction l with
  | nil => rfl
  | cons e t ih =>
    obtain ⟨u, m⟩ := e
    simp only [processItems, List.map_cons]
    rw [processItem_fst, ih]
    rfl

lemma processItems_thumb_tokens (w : World) (argsToken : String) (thumb : Bool) :
    ∀ l : List (String × SongMeta),
      ∀ c ∈ (processItems w argsToken thumb l).2, c.2 = argsToken := by
  intro l
  induction l with
  | nil => intro c hc; simp [processItems] at hc
  | cons e t ih =>
    obtain ⟨u, m⟩ := e
    intro c hc
    simp only [processItems, List.mem_append] at hc
    rcases hc with hc | hc
    · rw [processItem] at hc
      cases hd : w.download m.audio_url argsToken with
      | none => rw [hd] at hc; simp at hc
      | some s =>
        rw [hd] at hc
        dsimp only at hc
        by_cases hsp : (thumb && truthy m.image_url) = true
        · rw [if_pos hsp] at hc
          simp at hc
          rw [hc]
        · rw [if_neg hsp] at hc
          simp at hc
    · exact ih c hc

lemma continueExtract_not_crashed (fetch : PageOracle) (order : List Nat)
    (t : String) (n : Nat) (calls : List (Nat × String)) :
    (continueExtract fetch order t n calls).crashed = false := by
  rw [continueExtract]
  by_cases hn : n = 0
  · simp [hn]
  · rw [if_neg hn]
    cases hcp : collectPages fetch t order <;> simp

lemma continueExtract_calls (fetch : PageOracle) (order : List Nat)
    (t : String) (n : Nat) (calls : List (Nat × String)) :
    (continueExtract fetch order t n calls).pageCalls =
      calls ++ (List.range' 1 n).map (fun p => (p, t)) := by
  rw [continueExtract]
  by_cases hn : n = 0
  · simp [hn]
  · rw [if_neg hn]
    cases hcp : collectPages fetch t order <;> simp

lemma extractRun_crashed_songs (fetch : PageOracle) (order : List Nat)
    (oi t0 : String) (fuel : Nat) (eo : ExtractOut)
    (h : extractRun fetch order oi t0 fuel = some eo) (hc : eo.crashed = true) :
    eo.songs = [] := by
  rw [extractRun] at h
  cases h1 : determineRun fetch t0 fuel 1 with
  | none => rw [h1] at h; simp at h
  | some pr =>
    obtain ⟨r, calls1⟩ := pr
    rw [h1] at h
    cases r with
    | raised =>
      simp only [Option.some_inj] at h
      rw [← h]
    | pages n =>
      simp only [Option.some_inj] at h
      rw [← h] at hc
      rw [continueExtract_not_crashed] at hc
      cases hc
    | authFailed =>
      by_cases hoi : oi = ""
      · simp only [if_pos hoi, Option.some_inj] at h
        rw [← h]
      · simp only [if_neg hoi] at h
        cases h2 : determineRun fetch oi fuel 1 with
        | none => rw [h2] at h; simp at h
        | some pr2 =>
          obtain ⟨r2, calls2⟩ := pr2
          rw [h2] at h
          cases r2 with
          | raised =>
            simp only [Option.some_inj] at h
            rw [← h]
          | authFailed =>
            simp only [Option.some_inj] at h
            rw [← h]
          | pages n =>
            simp only [Option.some_inj] at h
            rw [← h] at hc
            rw [continueExtract_not_crashed] at hc
            cases hc

/-! ## Collision-safe-naming lemmas -/

lemma decVal_decReprAux : ∀ fuel n, n < fuel → decVal (decReprAux fuel n) = n := by
  intro fuel
  induction fuel with
  | zero => intro n h; omega
  | succ f ih =>
    intro n h
    rw [decReprAux]
    by_cases h10 : n < 10
    · rw [if_pos h10]
      have hc : (Char.ofNat (48 + n)).toNat = 48 + n := by
        interval_cases n <;> decide
      simp [decVal, hc]
    · rw [if_neg h10]
      have hdiv : n / 10 < f := by
        have h2 : n / 10 < n := Nat.div_lt_self (by omega) (by omega)
        omega
      have ih1 := ih (n / 10) hdiv
      have hm : n % 10 < 10 := Nat.mod_lt _ (by omega)
      have hc : (Char.ofNat (48 + n % 10)).toNat = 48 + n % 10 := by
        generalize hg : n % 10 = m at hm
        interval_cases m <;> decide
      rw [decVal, List.foldl_append]
      rw [show List.foldl (fun acc c => acc * 10 + (c.toNat - 48)) 0 (decReprAux f (n / 10)) =
        n / 10 from ih1]
      simp only [List.foldl_cons, List.foldl_nil, hc]
      have hd := Nat.div_add_mod n 10
      omega

lemma decVal_decRepr (n : Nat) : decVal (decRepr n) = n :=
  decVal_decReprAux (n + 1) n (by omega)

lemma decRepr_inj : Function.Injective decRepr := by
  intro a b h
  have := decVal_decRepr a
  rw [h, decVal_decRepr] at this
  exact this.symm

lemma versioned_inj (name extn : List Char) {a b : Nat}
    (h : versioned name extn a = versioned name extn b) : a = b := by
  rw [versioned, versioned] at h
  have h1 : (name ++ [' ', 'v']) ++ decRepr a = (name ++ [' ', 'v']) ++ decRepr b :=
    @List.append_cancel_right _ ((name ++ [' ', 'v']) ++ decRepr a) extn
      ((name ++ [' ', 'v']) ++ decRepr b) h
  have h2 : decRepr a = decRepr b :=
    @List.append_cancel_left _ (name ++ [' ', 'v']) _ _ h1
  exact decRepr_inj h2

lemma guAux_sound (fs : List (List Char)) (name extn : List Char) :
    ∀ fuel counter r, guAux fs name extn counter fuel = some r →
      ∃ k, counter ≤ k ∧ r = versioned name extn k ∧
        versioned name extn k ∉ fs ∧
        ∀ j, counter ≤ j → j < k → versioned name extn j ∈ fs := by
  intro fuel
  induction fuel with
  | zero => intro counter r h; simp [guAux] at h
  | succ f ih =>
    intro counter r h
    rw [guAux] at h
    by_cases hm : versioned name extn counter ∈ fs
    · rw [if_pos hm] at h
      obtain ⟨k, hk1, hk2, hk3, hk4⟩ := ih (counter + 1) r h
      refine ⟨k, by omega, hk2, hk3, ?_⟩
      intro j hj1 hj2
      by_cases hje : j = counter
      · rw [hje]; exact hm
      · exact hk4 j (by omega) hj2
    · rw [if_neg hm] at h
      obtain rfl : versioned name extn counter = r := by
        simpa using h
      exact ⟨counter, le_rfl, rfl, hm, fun j hj1 hj2 => absurd hj1 (by omega)⟩

lemma guAux_complete (fs : List (List Char)) (name extn : List Char) :
    ∀ fuel counter,
      (∃ j, counter ≤ j ∧ j < counter + fuel ∧ versioned name extn j ∉ fs) →
      (guAux fs name extn counter fuel).isSome := by
  intro fuel
  induction fuel with
  | zero => intro counter h; obtain ⟨j, h1, h2, _⟩ := h; omega
  | succ f ih =>
    intro counter h
    rw [guAux]
    by_cases hm : versioned name extn counter ∈ fs
    · rw [if_pos hm]
      obtain ⟨j, h1, h2, h3⟩ := h
      have hje : j ≠ counter := fun hc => h3 (hc ▸ hm)
      exact ih (counter + 1) ⟨j, by omega, by omega, h3⟩
    · rw [if_neg hm]; rfl

lemma exists_free_counter (fs : List (List Char)) (name extn : List Char) (c0 : Nat) :
    ∃ j, c0 ≤ j ∧ j < c0 + (fs.length + 1) ∧ versioned name extn j ∉ fs := by
  by_contra hcon
  push_neg at hcon
  have hsub : (Finset.range (fs.length + 1)).image
      (fun i => versioned name extn (c0 + i)) ⊆ fs.toFinset := by
    intro x hx
    obtain ⟨i, hi, rfl⟩ := Finset.mem_image.mp hx
    rw [List.mem_toFinset]
    exact hcon _ (by omega) (by simp at hi; omega)
  have hcard : ((Finset.range (fs.length + 1)).image
      (fun i => versioned name extn (c0 + i))).card = fs.length + 1 := by
    rw [Finset.card_image_of_injective _
      (fun a b hab => by
        have := versioned_inj name extn hab
        omega)]
    exact Finset.card_range _
  have hle := Finset.card_le_card hsub
  rw [hcard] at hle
  have := fs.toFinset_card_le
  omega

lemma downloadGo_target (oracle : Nat → DlAttempt) (target : List Char) (maxR : Nat) :
    ∀ n attempt, maxR - attempt ≤ n →
      (∀ p ∈ (downloadGo oracle target maxR attempt).writes, p = target) ∧
      (∀ r, (downloadGo oracle target maxR attempt).result = some r → r = target) := by
  intro n
  induction n with
  | zero =>
    intro attempt hn
    have hnl : ¬ attempt < maxR - 1 := by omega
    rw [downloadGo]
    cases ho : oracle attempt with
    | ok =>
      refine ⟨fun p hp => ?_, fun r hr => ?_⟩
      · simpa using hp
      · have h := hr
        simp at h
        exact h.symm
    | exnEarly =>
      refine ⟨fun p hp => ?_, fun r hr => ?_⟩
      · simp [hnl] at hp
      · simp [hnl] at hr
    | exnMid =>
      refine ⟨fun p hp => ?_, fun r hr => ?_⟩
      · simp [hnl] at hp
        exact hp
      · simp [hnl] at hr
  | succ m ih =>
    intro attempt hn
    rw [downloadGo]
    cases ho : oracle attempt with
    | ok =>
      refine ⟨fun p hp => ?_, fun r hr => ?_⟩
      · simpa using hp
      · have h := hr
        simp at h
        exact h.symm
    | exnEarly =>
      by_cases hl : attempt < maxR - 1
      · have hrec := ih (attempt + 1) (by omega)
        refine ⟨fun p hp => ?_, fun r hr => ?_⟩
        · exact hrec.1 p (by simpa [hl] using hp)
        · exact hrec.2 r (by simpa [hl] using hr)
      · refine ⟨fun p hp => ?_, fun r hr => ?_⟩
        · simp [hl] at hp
        · simp [hl] at hr
    | exnMid =>
      by_cases hl : attempt < maxR - 1
      · have hrec := ih (attempt + 1) (by omega)
        refine ⟨fun p hp => ?_, fun r hr => ?_⟩
        · simp [hl] at hp
          rcases hp with hp | hp
          · exact hp
          · exact hrec.1 p hp
        · exact hrec.2 r (by simpa [hl] using hr)
      · refine ⟨fun p hp => ?_, fun r hr => ?_⟩
        · simp [hl] at hp
          exact hp
        · simp [hl] at hr

/-! ## Embed lemmas -/

lemma delAPIC_no_apic (t : List (String × Frame)) :
    ∀ e ∈ delAPIC t, isApicKey e.1 = false := by
  intro e he
  rw [delAPIC] at he
  have h2 := (List.mem_filter.mp he).2
  simpa using h2

lemma apicEntries_setTag_fresh (k : String) (f : Frame)
    (hk : isApicKey k = true) :
    ∀ l : List (String × Frame), (∀ e ∈ l, isApicKey e.1 = false) →
      apicEntries (setTag l k f) = [(k, f)] := by
  intro l
  induction l with
  | nil => intro _; simp [setTag, apicEntries, hk]
  | cons e rest ih =>
    intro hall
    obtain ⟨k', f'⟩ := e
    have hk' : isApicKey k' = false := hall (k', f') (List.mem_cons_self _ _)
    have hne : k' ≠ k := fun hc => by rw [hc, hk] at hk'; cases hk'
    rw [setTag, if_neg hne]
    show apicEntries ((k', f') :: setTag rest k f) = [(k, f)]
    simp only [apicEntries, List.filter_cons, hk']
    exact ih (fun e he => hall e (List.mem_cons_of_mem _ he))

end Suno

/-- C2: the extraction output is the fold over pages in ascending
page-number order (so it is invariant under the completion order of the
page data, given distinct page numbers); for each identity the mapping
holds exactly the first valid occurrence in that ascending-order clip
stream; and a record missing identity, title or primary URL is dropped
without affecting the processing of any other record. -/
theorem extraction_ascending_first_wins_drops_invalid :
    (∀ (pd1 pd2 : List (Nat × List Suno.Clip)), pd1.Perm pd2 →
      (Suno.pageKeys pd1).Nodup →
      Suno.processAllPages pd1 = Suno.processAllPages pd2) ∧
    (∀ (pd : List (Nat × List Suno.Clip)) (u : String),
      (Suno.processAllPages pd).lookup u =
        (Suno.firstValid u (Suno.clipStream pd)).map Suno.clipMeta) ∧
    (∀ (si : List (String × Suno.SongMeta)) (l1 l2 : List Suno.Clip) (c : Suno.Clip),
      Suno.validClip c = false →
      Suno.processClips si (l1 ++ c :: l2) = Suno.processClips si (l1 ++ l2)) := by
  refine ⟨Suno.processAllPages_perm, ?_, ?_⟩
  · intro pd u
    rw [Suno.processAllPages_eq_stream, Suno.processClips_lookup]
    rfl
  · intro si l1 l2 c hc
    simp only [Suno.processClips, List.foldl_append, List.foldl_cons]
    rw [Suno.addClip_invalid hc]

/-- Witness for C2 on a two-page catalog given in reversed completion
order, with one invalid record. -/
theorem extraction_ascending_first_wins_drops_invalid_witness :
    Suno.processAllPages [(2, [{ Suno.dummyClip with title := some "B" }]),
        (1, [{ Suno.dummyClip with title := some "A" }])] =
      Suno.processAllPages [(1, [{ Suno.dummyClip with title := some "A" }]),
        (2, [{ Suno.dummyClip with title := some "B" }])] ∧
    (Suno.processAllPages [(2, [{ Suno.dummyClip with title := some "B" }]),
        (1, [{ Suno.dummyClip with title := some "A" }])]).lookup "id" =
      (Suno.firstValid "id" (Suno.clipStream
        [(2, [{ Suno.dummyClip with title := some "B" }]),
         (1, [{ Suno.dummyClip with title := some "A" }])])).map Suno.clipMeta ∧
    Suno.processClips [] ([{ Suno.dummyClip with title := some "A" }] ++
        { Suno.dummyClip with id := some "" } :: [{ Suno.dummyClip with title := some "B" }]) =
      Suno.processClips [] ([{ Suno.dummyClip with title := some "A" }] ++
        [{ Suno.dummyClip with title := some "B" }]) :=
  ⟨extraction_ascending_first_wins_drops_invalid.1 _ _
      (List.Perm.swap (1, [{ Suno.dummyClip with title := some "A" }])
        (2, [{ Suno.dummyClip with title := some "B" }]) []) (by decide),
   extraction_ascending_first_wins_drops_invalid.2.1 _ "id",
   extraction_ascending_first_wins_drops_invalid.2.2 [] _ _
      { Suno.dummyClip with id := some "" } (by decide)⟩

/-- C10: every item of the extraction result has a non-empty identity,
title and primary asset URL, keyed by its own identity; and a record
whose title is the empty string is dropped exactly as one whose title is
absent. -/
theorem extracted_fields_nonempty :
    (∀ (pd : List (Nat × List Suno.Clip)) (u : String) (m : Suno.SongMeta),
      (Suno.processAllPages pd).lookup u = some m →
      m.uuid ≠ "" ∧ m.title ≠ "" ∧ m.audio_url ≠ "" ∧ m.uuid = u) ∧
    (∀ (si : List (String × Suno.SongMeta)) (c : Suno.Clip),
      Suno.addClip si { c with title := some "" } =
        Suno.addClip si { c with title := none }) := by
  constructor
  · intro pd u m hm
    rw [Suno.processAllPages_eq_stream, Suno.processClips_lookup] at hm
    cases hf : Suno.firstValid u (Suno.clipStream pd) with
    | none => rw [hf] at hm; simp at hm
    | some c =>
      rw [hf] at hm
      simp only [List.lookup, Option.map_some] at hm
      have hmc : m = Suno.clipMeta c := by
        cases hm; rfl
      obtain ⟨hv, hid⟩ := Suno.firstValid_spec u _ c hf
      simp only [Suno.validClip, Bool.and_eq_true] at hv
      obtain ⟨⟨h1, h2⟩, h3⟩ := hv
      subst hmc
      exact ⟨Suno.truthy_getD h1, Suno.truthy_getD h2, Suno.truthy_getD h3, hid⟩
  · intro si c
    simp [Suno.addClip, Suno.validClip, Suno.truthy]

/-- Witness for C10 on a one-page catalog. -/
theorem extracted_fields_nonempty_witness :
    ((Suno.clipMeta Suno.dummyClip).uuid ≠ "" ∧
      (Suno.clipMeta Suno.dummyClip).title ≠ "" ∧
      (Suno.clipMeta Suno.dummyClip).audio_url ≠ "" ∧
      (Suno.clipMeta Suno.dummyClip).uuid = "id") ∧
    Suno.addClip [] { Suno.dummyClip with title := some "" } =
      Suno.addClip [] { Suno.dummyClip with title := none } :=
  ⟨extracted_fields_nonempty.1 [(1, [Suno.dummyClip])] "id" (Suno.clipMeta Suno.dummyClip)
      (by decide),
   extracted_fields_nonempty.2 [] Suno.dummyClip⟩

/-- C5: if any one of the parallel page-fetch tasks yields an
authentication failure or a terminal error, the `as_completed` loop
aborts the whole bulk fetch and `extract_private_song_info` returns the
empty mapping: no partial item set ever reaches the caller. -/
theorem bulk_fetch_abort_yields_no_items :
    (∀ (fetch : Suno.PageOracle) (t : String) (order : List Nat),
      (∃ p ∈ order, fetch t p = .authFailure ∨ fetch t p = .raised) →
      Suno.collectPages fetch t order = none) ∧
    (∀ (fetch : Suno.PageOracle) (order : List Nat) (t : String) (n : Nat)
      (calls : List (Nat × String)),
      (∃ p ∈ order, fetch t p = .authFailure ∨ fetch t p = .raised) →
      (Suno.continueExtract fetch order t n calls).songs = []) := by
  constructor
  · exact fun fetch t order h => Suno.collectPages_bad fetch t order h
  · intro fetch order t n calls hbad
    by_cases hn : n = 0
    · simp [Suno.continueExtract, hn]
    · simp [Suno.continueExtract, hn, Suno.collectPages_bad fetch t order hbad]

/-- Witness for C5: one raised page fetch among two pages empties the
whole batch. -/
theorem bulk_fetch_abort_yields_no_items_witness :
    Suno.collectPages (fun _ p => if p = 2 then .raised else .success [Suno.dummyClip])
      "tk" [1, 2] = none ∧
    (Suno.continueExtract (fun _ p => if p = 2 then .raised else .success [Suno.dummyClip])
      [1, 2] "tk" 2 []).songs = [] :=
  ⟨bulk_fetch_abort_yields_no_items.1 _ "tk" [1, 2] ⟨2, by simp, Or.inr (by simp)⟩,
   bulk_fetch_abort_yields_no_items.2 _ [1, 2] "tk" 2 [] ⟨2, by simp, Or.inr (by simp)⟩⟩

/-- C4: for a catalog whose pages `1..N` are non-empty and whose page
`N+1` is the first empty page, `determine_total_pages` probes pages
sequentially from 1, stops at the first empty page `N+1`, and reports
`N` total pages; an auth failure on any probe is propagated immediately;
and on the simulated catalog of `T` items chunked `k` per page the
reported count is `ceil(T/k)`. -/
theorem pagination_first_empty_page :
    (∀ (fetch : Suno.PageOracle) (t : String) (N fuel : Nat),
      (∀ i, 1 ≤ i → i ≤ N → ∃ clips, fetch t i = .success clips ∧ clips ≠ []) →
      fetch t (N + 1) = .success [] → N + 1 ≤ fuel →
      Suno.determineRun fetch t fuel 1 =
        some (.pages N, (List.range' 1 (N + 1)).map (fun p => (p, t)))) ∧
    (∀ (fetch : Suno.PageOracle) (t : String) (q fuel : Nat),
      1 ≤ q →
      (∀ i, 1 ≤ i → i < q → ∃ clips, fetch t i = .success clips ∧ clips ≠ []) →
      fetch t q = .authFailure → q ≤ fuel →
      Suno.determineRun fetch t fuel 1 =
        some (.authFailed, (List.range' 1 q).map (fun p => (p, t)))) ∧
    (∀ (t : String) (T k fuel : Nat), 0 < k → T + 2 ≤ fuel →
      Suno.determineRun (Suno.chunkPages T k) t fuel 1 =
        some (.pages ((T + k - 1) / k),
          (List.range' 1 ((T + k - 1) / k + 1)).map (fun p => (p, t)))) := by
  have main : ∀ (fetch : Suno.PageOracle) (t : String) (N fuel : Nat),
      (∀ i, 1 ≤ i → i ≤ N → ∃ clips, fetch t i = .success clips ∧ clips ≠ []) →
      fetch t (N + 1) = .success [] → N + 1 ≤ fuel →
      Suno.determineRun fetch t fuel 1 =
        some (.pages N, (List.range' 1 (N + 1)).map (fun p => (p, t))) := by
    intro fetch t N fuel hne he hfuel
    have h := (Suno.determineRun_seq fetch t N 1 fuel
      (fun i h1 h2 => hne i h1 (by omega)) (by omega)).1
      (by rw [Nat.add_comm] at he; exact he)
    simpa using h
  refine ⟨main, ?_, ?_⟩
  · intro fetch t q fuel hq hne ha hfuel
    have h := (Suno.determineRun_seq fetch t (q - 1) 1 fuel
      (fun i h1 h2 => hne i h1 (by omega)) (by omega)).2
      (by rw [show 1 + (q - 1) = q by omega]; exact ha)
    rw [show q - 1 + 1 = q by omega] at h
    simpa using h
  · intro t T k fuel hk hfuel
    obtain ⟨hb1, hb2, hb3⟩ := Suno.ceil_bounds T k hk
    apply main
    · intro i h1 h2
      refine ⟨_, rfl, ?_⟩
      intro hnil
      have hlen := congrArg List.length hnil
      simp only [List.length_replicate, List.length_nil] at hlen
      have hik := hb2 (i - 1) (by omega)
      generalize hikg : (i - 1) * k = ik at hik hlen
      omega
    · show Suno.FetchResult.success _ = _
      have h0 : min k (T - (T + k - 1) / k * k) = 0 := by
        generalize hNk : (T + k - 1) / k * k = Nk at hb1
        omega
      have h1 : ((T + k - 1) / k + 1 - 1) * k = (T + k - 1) / k * k := by
        norm_num
      rw [h1, h0]
      rfl
    · omega

/-- Witness for C4 on a catalog with two one-clip pages: discovery probes
pages 1, 2, 3 and reports 2 total pages. -/
theorem pagination_first_empty_page_witness :
    Suno.determineRun
      (fun _ p => if p ≤ 2 then .success [Suno.dummyClip] else .success []) "tk" 4 1 =
      some (.pages 2, [(1, "tk"), (2, "tk"), (3, "tk")]) := by
  have h := pagination_first_empty_page.1
    (fun _ p => if p ≤ 2 then .success [Suno.dummyClip] else .success []) "tk" 2 4
    (fun i h1 h2 => ⟨[Suno.dummyClip], by simp [h2], by simp⟩)
    (by norm_num) (by omega)
  simpa [List.range'] using h

/-- C3: a request whose every attempt fails with a transient (non-auth)
error performs exactly 10 attempts separated by exactly 9 fixed
inter-attempt delays and then raises the terminal error exactly once,
both in `fetch_page_with_retry` and in the `download_file` retry loop:
never an 11th attempt and never a raise before the 10th failure. -/
theorem retry_ceiling_ten_attempts (oracleF : Nat → Suno.AttemptOutcome)
    (oracleD : Nat → Suno.DlAttempt) (target : List Char)
    (hF : ∀ i, i < 10 → Suno.isTransient (oracleF i) = true)
    (hD : ∀ i, i < 10 → Suno.dlTransient (oracleD i) = true) :
    Suno.fetch_page_with_retry oracleF 10 =
      { result := .raised, attempts := 10, delays := 9 } ∧
    (Suno.downloadGo oracleD target 10 0).result = none ∧
    (Suno.downloadGo oracleD target 10 0).attempts = 10 ∧
    (Suno.downloadGo oracleD target 10 0).delays = 9 := by
  constructor
  · rw [Suno.fetch_page_with_retry, if_neg (by omega)]
    exact Suno.fetchGo_allTransient oracleF 10 9 0 (by omega) (fun i _ h2 => hF i h2)
  · exact Suno.downloadGo_allTransient oracleD target 10 9 0 (by omega)
      (fun i _ h2 => hD i h2)

/-- Witness for C3 at the oracle that always raises a transport error. -/
theorem retry_ceiling_ten_attempts_witness :
    Suno.fetch_page_with_retry (fun _ => .exn) 10 =
      { result := .raised, attempts := 10, delays := 9 } ∧
    (Suno.downloadGo (fun _ => .exnEarly) [] 10 0).result = none ∧
    (Suno.downloadGo (fun _ => .exnEarly) [] 10 0).attempts = 10 ∧
    (Suno.downloadGo (fun _ => .exnEarly) [] 10 0).delays = 9 :=
  retry_ceiling_ten_attempts (fun _ => .exn) (fun _ => .exnEarly) []
    (fun _ _ => rfl) (fun _ _ => rfl)

/-- C6: a page fetch whose response status is 401 or 403 is classified as
an authentication failure on that very attempt: no further attempt, no
delay, whatever retry budget remains. -/
theorem auth_failure_no_retry_no_delay (oracle : Nat → Suno.AttemptOutcome)
    (maxR k status : Nat) (body : Suno.Body)
    (hk : k < maxR)
    (hprev : ∀ i, i < k → Suno.isTransient (oracle i) = true)
    (hcur : oracle k = .resp status body)
    (hstatus : status = 401 ∨ status = 403) :
    Suno.fetch_page_with_retry oracle maxR =
      { result := .authFailure, attempts := k + 1, delays := k } := by
  rw [Suno.fetch_page_with_retry, if_neg (by omega)]
  have h := Suno.fetchGo_auth oracle maxR k status body hk hcur hstatus k 0 (by omega)
    (by omega) (fun i _ h2 => hprev i h2)
  simpa using h

/-- Witness for C6: a 401 on the first attempt of a fresh 10-attempt
budget returns the auth-failure outcome after a single attempt. -/
theorem auth_failure_no_retry_no_delay_witness :
    Suno.fetch_page_with_retry (fun _ => .resp 401 (.arr [])) 10 =
      { result := .authFailure, attempts := 1, delays := 0 } :=
  auth_failure_no_retry_no_delay (fun _ => .resp 401 (.arr [])) 10 0 401 (.arr [])
    (by omega) (fun i h => absurd h (Nat.not_lt_zero i)) rfl (Or.inl rfl)

/-- C9: a `main` run exits non-zero exactly when extraction yielded zero
items; with at least one item the exit status is zero whatever the
per-item download and embed outcomes are (each per-item failure is
caught), and every item still receives its download attempt. -/
theorem exit_nonzero_iff_no_items (w : Suno.World) (argsToken : String)
    (thumb : Bool) (fuel : Nat) (out : Suno.MainOut)
    (h : Suno.mainRun w argsToken thumb fuel = some out) :
    (out.exitCode ≠ 0 ↔ out.songs = []) ∧
    (out.songs ≠ [] →
      out.downloadCalls = out.songs.map (fun e => (e.2.audio_url, argsToken))) := by
  rw [Suno.mainRun] at h
  cases he : Suno.extractRun w.fetch w.order w.operatorInput argsToken fuel with
  | none => rw [he] at h; simp at h
  | some eo =>
    rw [he] at h
    by_cases hc : eo.crashed = true
    · have hs := Suno.extractRun_crashed_songs _ _ _ _ _ _ he hc
      simp only [if_pos hc, Option.some_inj] at h
      rw [← h]
      constructor
      · simp [hs]
      · intro hne; exact absurd hs hne
    · by_cases hse : eo.songs.isEmpty = true
      · have hs : eo.songs = [] := by simpa using hse
        simp only [if_neg hc, if_pos hse, Option.some_inj] at h
        rw [← h]
        constructor
        · simp [hs]
        · intro hne; exact absurd hs hne
      · have hs : eo.songs ≠ [] := by simpa using hse
        simp only [if_neg hc, if_neg hse, Option.some_inj] at h
        rw [← h]
        constructor
        · simp [hs]
        · intro _
          exact Suno.processItems_fst w argsToken thumb eo.songs

/-- Witness for C9 against the empty catalog: extraction yields zero
items and the run exits with status 1. -/
theorem exit_nonzero_iff_no_items_witness :
    (Suno.mainOutEmpty.exitCode ≠ 0 ↔ Suno.mainOutEmpty.songs = []) ∧
    (Suno.mainOutEmpty.songs ≠ [] →
      Suno.mainOutEmpty.downloadCalls =
        Suno.mainOutEmpty.songs.map (fun e => (e.2.audio_url, "tk"))) :=
  exit_nonzero_iff_no_items Suno.emptyWorld "tk" false 2 Suno.mainOutEmpty (by decide)

/-- C1 is false as stated: in `exampleWorld`, discovery fails
authentication with the original credential `"old"`, the operator
supplies the replacement `"new"`, the retried discovery and the parallel
page fetches use `"new"` — yet the file download and the thumbnail fetch
of the same run are still issued with the original `"old"`. -/
theorem downloads_keep_original_credential_counterexample :
    (Suno.mainRun Suno.exampleWorld "old" true 3).map Suno.MainOut.pageCalls =
      some [(1, "old"), (1, "new"), (2, "new"), (1, "new")] ∧
    (Suno.mainRun Suno.exampleWorld "old" true 3).map Suno.MainOut.downloadCalls =
      some [("u", "old")] ∧
    (Suno.mainRun Suno.exampleWorld "old" true 3).map Suno.MainOut.thumbCalls =
      some [("img", "old")] ∧
    Suno.exampleWorld.operatorInput = "new" ∧ ("old" : String) ≠ "new" := by
  refine ⟨by decide, by decide, by decide, by decide, by decide⟩

/-- C1 (amended): after the recovery step replaces the credential, the
retried pagination discovery and every parallel page fetch are issued
with the replacement credential, but every file download and every
thumbnail fetch of the run are issued with the original operator-supplied
credential (`main` passes `args.token`, not the replacement, to
`download_file` and `embed_metadata`). -/
theorem replacement_credential_scope (w : Suno.World) (t0 : String) (thumb : Bool)
    (fuel n : Nat) (calls1 calls2 : List (Nat × String)) (out : Suno.MainOut)
    (h1 : Suno.determineRun w.fetch t0 fuel 1 = some (.authFailed, calls1))
    (hoi : ¬ w.operatorInput = "")
    (h2 : Suno.determineRun w.fetch w.operatorInput fuel 1 = some (.pages n, calls2))
    (hm : Suno.mainRun w t0 thumb fuel = some out) :
    out.pageCalls =
      calls1 ++ calls2 ++ (List.range' 1 n).map (fun p => (p, w.operatorInput)) ∧
    (∀ c ∈ calls2, c.2 = w.operatorInput) ∧
    (∀ c ∈ out.downloadCalls, c.2 = t0) ∧
    (∀ c ∈ out.thumbCalls, c.2 = t0) := by
  have he : Suno.extractRun w.fetch w.order w.operatorInput t0 fuel =
      some (Suno.continueExtract w.fetch w.order w.operatorInput n (calls1 ++ calls2)) := by
    rw [Suno.extractRun, h1]
    simp only [if_neg hoi, h2]
  rw [Suno.mainRun, he] at hm
  have hcr := Suno.continueExtract_not_crashed w.fetch w.order w.operatorInput n
    (calls1 ++ calls2)
  have hpc := Suno.continueExtract_calls w.fetch w.order w.operatorInput n
    (calls1 ++ calls2)
  have htok := Suno.determineRun_calls_token w.fetch w.operatorInput fuel 1 _ _ h2
  by_cases hse : (Suno.continueExtract w.fetch w.order w.operatorInput n
      (calls1 ++ calls2)).songs.isEmpty = true
  · simp only [hcr, Bool.false_eq_true, if_false, if_pos hse, Option.some_inj] at hm
    rw [← hm]
    refine ⟨by rw [hpc, List.append_assoc], htok, ?_, ?_⟩
    · intro c hc; simp at hc
    · intro c hc; simp at hc
  · simp only [hcr, Bool.false_eq_true, if_false, if_neg hse, Option.some_inj] at hm
    rw [← hm]
    refine ⟨by rw [hpc, List.append_assoc], htok, ?_, ?_⟩
    · intro c hc
      rw [Suno.processItems_fst] at hc
      obtain ⟨e, _, he2⟩ := List.mem_map.mp hc
      rw [← he2]
    · exact Suno.processItems_thumb_tokens w t0 thumb _

/-- C7: `download_file` resolves a collision-safe path exactly once,
before any network attempt: the desired path itself if no file exists
there, else the variant with the smallest version counter `v2`, `v3`, …
naming no existing file; the resolved path names no pre-existing file,
every write of the retry loop targets only that path, and on success
that path is returned. -/
theorem collision_safe_naming (fs : List (List Char)) (filename : List Char)
    (oracle : Nat → Suno.DlAttempt) (maxR fuel : Nat)
    (hfuel : fs.length + 1 ≤ fuel) (hmax : 1 ≤ maxR) :
    ∃ u, Suno.get_unique_filename fs filename fuel = some u ∧
      (filename ∉ fs → u = filename) ∧
      (filename ∈ fs → ∃ k, 2 ≤ k ∧
        u = Suno.versioned (Suno.splitext filename).1 (Suno.splitext filename).2 k ∧
        ∀ j, 2 ≤ j → j < k →
          Suno.versioned (Suno.splitext filename).1 (Suno.splitext filename).2 j ∈ fs) ∧
      u ∉ fs ∧
      Suno.download_file fs filename oracle maxR fuel =
        some (Suno.downloadGo oracle u maxR 0) ∧
      (∀ p ∈ (Suno.downloadGo oracle u maxR 0).writes, p = u) ∧
      (∀ r, (Suno.downloadGo oracle u maxR 0).result = some r → r = u) := by
  by_cases hmem : filename ∈ fs
  · obtain ⟨j, hj1, hj2, hj3⟩ := Suno.exists_free_counter fs (Suno.splitext filename).1
      (Suno.splitext filename).2 2
    have hcomp := Suno.guAux_complete fs (Suno.splitext filename).1
      (Suno.splitext filename).2 fuel 2 ⟨j, hj1, by omega, hj3⟩
    obtain ⟨u, hu⟩ := Option.isSome_iff_exists.mp hcomp
    obtain ⟨k, hk1, hk2, hk3, hk4⟩ := Suno.guAux_sound fs _ _ fuel 2 u hu
    have hg : Suno.get_unique_filename fs filename fuel = some u := by
      rw [Suno.get_unique_filename, if_pos hmem]
      exact hu
    refine ⟨u, hg, fun hc => absurd hmem hc, fun _ => ⟨k, hk1, hk2, hk4⟩,
      by rw [hk2]; exact hk3, ?_, ?_, ?_⟩
    · rw [Suno.download_file, hg]
      simp only [Option.map_some']
      rw [if_neg (by omega)]
    · exact (Suno.downloadGo_target oracle u maxR maxR 0 (by omega)).1
    · exact (Suno.downloadGo_target oracle u maxR maxR 0 (by omega)).2
  · have hg : Suno.get_unique_filename fs filename fuel = some filename := by
      rw [Suno.get_unique_filename, if_neg hmem]
    refine ⟨filename, hg, fun _ => rfl, fun hc => absurd hc hmem, hmem, ?_, ?_, ?_⟩
    · rw [Suno.download_file, hg]
      simp only [Option.map_some']
      rw [if_neg (by omega)]
    · exact (Suno.downloadGo_target oracle filename maxR maxR 0 (by omega)).1
    · exact (Suno.downloadGo_target oracle filename maxR maxR 0 (by omega)).2

/-- Witness for C7: with `Song.mp3` and `Song v2.mp3` already on disk,
the resolved path is `Song v3.mp3`, which names no existing file. -/
theorem collision_safe_naming_witness :
    Suno.get_unique_filename ["Song.mp3".data, "Song v2.mp3".data] "Song.mp3".data 3 =
      some "Song v3.mp3".data ∧
    "Song v3.mp3".data ∉ ["Song.mp3".data, "Song v2.mp3".data] := by
  obtain ⟨u, h1, h2, h3, h4, h5, h6, h7⟩ := collision_safe_naming
    ["Song.mp3".data, "Song v2.mp3".data] "Song.mp3".data
    (fun _ => Suno.DlAttempt.ok) 10 3 (by decide) (by omega)
  have hval : Suno.get_unique_filename ["Song.mp3".data, "Song v2.mp3".data]
      "Song.mp3".data 3 = some "Song v3.mp3".data := by decide
  rw [h1] at hval
  have hu : u = "Song v3.mp3".data := Option.some_inj.mp hval
  constructor
  · rw [← hu]
    exact h1
  · rw [← hu]
    exact h4

/-- C8: one embed run leaves the tag container with exactly one embedded
image, classified as front cover (`type=3`), whatever images the
container held before; hence after any positive number of embed runs the
container holds exactly that one image. -/
theorem embed_single_front_cover :
    (∀ (tags : List (String × Suno.Frame)) (title artist : Option String)
      (mime imgData : String),
      Suno.apicEntries (Suno.embedTags tags title artist mime imgData) =
        [("APIC:Cover", .apic mime 3 "Cover" imgData)]) ∧
    (∀ (n : Nat) (tags : List (String × Suno.Frame)) (title artist : Option String)
      (mime imgData : String), 1 ≤ n →
      Suno.apicEntries
        ((fun t => Suno.embedTags t title artist mime imgData)^[n] tags) =
        [("APIC:Cover", .apic mime 3 "Cover" imgData)]) := by
  have one : ∀ (tags : List (String × Suno.Frame)) (title artist : Option String)
      (mime imgData : String),
      Suno.apicEntries (Suno.embedTags tags title artist mime imgData) =
        [("APIC:Cover", .apic mime 3 "Cover" imgData)] := by
    intro tags title artist mime imgData
    rw [Suno.embedTags]
    exact Suno.apicEntries_setTag_fresh "APIC:Cover" _ (by decide) _
      (Suno.delAPIC_no_apic _)
  refine ⟨one, ?_⟩
  intro n tags title artist mime imgData hn
  obtain ⟨m, rfl⟩ : ∃ m, n = m + 1 := ⟨n - 1, by omega⟩
  rw [Function.iterate_succ_apply']
  exact one _ title artist mime imgData

/-- Witness for C8: two successive embed runs on a container that already
held two stale images leave exactly one front-cover image. -/
theorem embed_single_front_cover_witness :
    Suno.apicEntries
      ((fun t => Suno.embedTags t (some "T") none "image/png" "bytes")^[2]
        [("APIC:Old", .apic "image/jpeg" 3 "Old" "x"), ("TPE1", .tpe1 "a")]) =
      [("APIC:Cover", .apic "image/png" 3 "Cover" "bytes")] :=
  embed_single_front_cover.2 2
    [("APIC:Old", .apic "image/jpeg" 3 "Old" "x"),
     ("TPE1", .tpe1 "a")] (some "T") none "image/png" "bytes" (by omega)

/-- Witness for the amended C1 against `exampleWorld`. -/
theorem replacement_credential_scope_witness :
    Suno.mainOutExample.pageCalls =
      [(1, "old"), (1, "new"), (2, "new"), (1, "new")] ∧
    (("u", "old") : String × String).2 = "old" ∧
    (("img", "old") : String × String).2 = "old" := by
  have h := replacement_credential_scope Suno.exampleWorld "old" true 3 1
    [(1, "old")] [(1, "new"), (2, "new")] Suno.mainOutExample
    (by decide) (by decide) (by decide) (by decide)
  exact ⟨h.1.trans (by decide), h.2.2.1 ("u", "old") (by decide),
    h.2.2.2 ("img", "old") (by decide)⟩


